import Mathlib

/-!
Verification of the loopholelabs/common repository: a circular FIFO queue
(package queue) and a ranged-read chunk downloader (package chunk).

The circular queue implementation file itself is not present in the
sources (only its test file is), so the queue operations below are
modelled from the specification, with every parameter that the spec
leaves open (ring size, index wrapping, the exact full condition) fixed
by the assertions of TestCircular in the test file.
-/

namespace Common

/-- Modelled from the spec: fuel-bounded helper computing the least power
of two that is at least n (one is returned for n at most 1). -/
def pow2ceilAux : Nat → Nat → Nat
  | 0, _ => 1
  | fuel + 1, n => if n ≤ 1 then 1 else 2 * pow2ceilAux fuel ((n + 1) / 2)

/-- Modelled from the spec: least power of two that is at least n. -/
def pow2ceil (n : Nat) : Nat :=
  pow2ceilAux n n

/-- Modelled from the spec: the physical ring size chosen by the missing
constructor for a maximum size m > 0.  The test file pins it down: a
capacity-1 queue has ring size 2 (tail wraps from 1 to 0) and a
capacity-4 queue has ring size 8 (six pushes succeed synchronously),
which is the least power of two at least m + 1. -/
def bufSize (m : Nat) : Nat :=
  pow2ceil (m + 1)

/-- Modelled from the spec: the state of the Circular queue.  Elements
are stored as references, so a slot holds an Option (none is a nil
reference); head and tail are the read and write cursors; maxSize is the
configured capacity (0 meaning unbounded); closed is the one-way
shutdown latch. -/
structure Circular (α : Type) where
  buffer : List (Option α)
  head : Nat
  tail : Nat
  maxSize : Nat
  closed : Bool
deriving DecidableEq

/-- Modelled from the spec: result of a Push call.  The blocked outcome
marks a call that does not complete synchronously (the caller suspends
until a Pop frees a slot or the queue is closed); closed is the Closed
error. -/
inductive PushResult (α : Type) where
  | ok (q : Circular α)
  | closed
  | blocked
deriving DecidableEq

/-- Modelled from the spec: result of a Pop call.  The popped element is
an Option because the queue stores references (a nil reference can be
stored and returned). -/
inductive PopResult (α : Type) where
  | ok (e : Option α) (q : Circular α)
  | closed
  | blocked
deriving DecidableEq

/-- Modelled from the spec: the constructor NewCircular.  When maxSize
is 0 the store starts empty and grows on every push; otherwise the store
is a fixed ring of bufSize maxSize nil slots. -/
def NewCircular (α : Type) (maxSize : Nat) : Circular α :=
  { buffer := List.replicate (if maxSize = 0 then 0 else bufSize maxSize) none
    head := 0
    tail := 0
    maxSize := maxSize
    closed := false }

namespace Circular

variable {α : Type}

/-- Modelled from the spec: Length returns the number of buffered
elements, read under the lock.  In unbounded mode the cursors are plain
counters, otherwise they are ring indices and the length is their
distance around the ring. -/
def Length (c : Circular α) : Nat :=
  if c.maxSize = 0 then c.tail - c.head
  else (c.tail + c.buffer.length - c.head) % c.buffer.length

/-- Modelled from the spec: Push.  Fails with Closed on a closed queue;
appends in unbounded mode; on a full ring (the next tail slot is the
head slot, as pinned by the capacity-1 blocking test) the call blocks;
otherwise the element is written at tail and tail advances modulo the
ring size. -/
def Push (c : Circular α) (e : α) : PushResult α :=
  if c.closed then .closed
  else if c.maxSize = 0 then
    .ok { c with buffer := c.buffer ++ [some e], tail := c.tail + 1 }
  else if (c.tail + 1) % c.buffer.length = c.head then .blocked
  else
    .ok { c with buffer := c.buffer.set c.tail (some e)
                 tail := (c.tail + 1) % c.buffer.length }

/-- Modelled from the spec: Pop.  On an empty queue it fails with Closed
when the queue is closed and blocks otherwise; on a non-empty queue it
returns the slot at head and advances head, even when the queue is
already closed. -/
def Pop (c : Circular α) : PopResult α :=
  if c.Length = 0 then
    if c.closed then .closed else .blocked
  else
    .ok (c.buffer.getD c.head none)
      { c with head := if c.maxSize = 0 then c.head + 1
                       else (c.head + 1) % c.buffer.length }

/-- Modelled from the spec: Close sets the one-way latch and wakes every
blocked caller. -/
def Close (c : Circular α) : Circular α :=
  { c with closed := true }

/-- Modelled from the spec: IsClosed reads the latch. -/
def IsClosed (c : Circular α) : Bool :=
  c.closed

/-- The logical contents of the queue, oldest first: the slots from head
to tail around the ring. -/
def toList (c : Circular α) : List (Option α) :=
  (List.range c.Length).map (fun i => c.buffer.getD ((c.head + i) % c.buffer.length) none)

/-- States reachable through the constructor and the operations: in
unbounded mode the store has exactly tail slots and head is at most
tail; in bounded mode the store has the constructor-chosen ring size and
both cursors are ring indices. -/
def Valid (c : Circular α) : Prop :=
  (c.maxSize = 0 → c.buffer.length = c.tail ∧ c.head ≤ c.tail) ∧
  (c.maxSize ≠ 0 → c.buffer.length = bufSize c.maxSize ∧
    c.head < c.buffer.length ∧ c.tail < c.buffer.length)

instance (c : Circular α) : Decidable c.Valid := by
  unfold Valid
  exact inferInstance

/-- The element a Pop call hands back, none when Pop does not return an
element (the call blocks or fails with Closed). -/
def popped (c : Circular α) : Option (Option α) :=
  match c.Pop with
  | .ok e _ => some e
  | _ => none

end Circular

/-- A single queue operation, used to talk about arbitrary operation
sequences. -/
inductive Op (α : Type) where
  | push (e : α)
  | pop
  | close
deriving DecidableEq

/-- One operation applied to a queue state; a blocked or failed call
leaves the state unchanged. -/
def step {α : Type} (c : Circular α) : Op α → Circular α
  | .push e =>
    match c.Push e with
    | .ok q => q
    | _ => c
  | .pop =>
    match c.Pop with
    | .ok _ q => q
    | _ => c
  | .close => c.Close

/-- A sequence of operations applied in order. -/
def run {α : Type} (c : Circular α) (ops : List (Op α)) : Circular α :=
  ops.foldl step c

/-- Push a whole list of elements; none when some push does not succeed
synchronously. -/
def pushAll {α : Type} (c : Circular α) : List α → Option (Circular α)
  | [] => some c
  | e :: es =>
    match c.Push e with
    | .ok q => pushAll q es
    | _ => none

/-- Pop n times, collecting the returned elements in order; none when
some pop does not return an element. -/
def popAll {α : Type} (c : Circular α) : Nat → Option (List (Option α) × Circular α)
  | 0 => some ([], c)
  | n + 1 =>
    match c.Pop with
    | .ok e q => (popAll q n).map (fun p => (e :: p.1, p.2))
    | _ => none

/-- Options for a ranged object download; SetRange on the Go side fills
the range header.  The external minio call that validates the range is
kept abstract and passed as a parameter where needed. -/
structure GetObjectOptions where
  rangeStart : Int
  rangeEnd : Int
deriving DecidableEq

/-- The Chunk record of pkg/chunk/chunk.go.  Reference fields (client,
ctx, opts, obj, wg) are modelled as Options, none standing for a nil
reference; data is the downloaded byte slice (none for a nil slice) and
err the error field (none for a nil error, errors are numeric codes). -/
structure Chunk where
  client : Option Nat
  ctx : Option Nat
  bucket : String
  key : String
  opts : Option GetObjectOptions
  obj : Option Nat
  data : Option (List UInt8)
  err : Option Nat
  wg : Option Nat
deriving DecidableEq

namespace Chunk

/-- Reset from chunk.go: client, ctx, opts, obj, data, err and wg are
set to nil; bucket and key are left as they are. -/
def Reset (c : Chunk) : Chunk :=
  { c with client := none, ctx := none, opts := none, obj := none,
           data := none, err := none, wg := none }

/-- Wait from chunk.go: after the download goroutine has finished it
returns the data and err fields. -/
def Wait (c : Chunk) : Option (List UInt8) × Option Nat :=
  (c.data, c.err)

/-- The body of the download goroutine (method do of chunk.go): obj and
err are assigned from the GetObject call; when that succeeded, data and
err are assigned from reading the object; finally wg.Done runs.  The
external GetObject and ReadAll calls are parameters: getObject is the
(object, error) outcome and readAll the (bytes, error) outcome of
reading a given object. -/
def download (c : Chunk) (getObject : Except Nat Nat)
    (readAll : Nat → List UInt8 × Option Nat) : Chunk :=
  match getObject with
  | .error e => { c with obj := none, err := some e, wg := some 0 }
  | .ok o =>
    { c with obj := some o, data := some (readAll o).1,
             err := (readAll o).2, wg := some 0 }

end Chunk

/-- GetChunk from chunk.go: a pooled Chunk gets the client, ctx, bucket
and key fields; a fresh options record has its byte range set to
offset..offset+size-1 through the external SetRange call (passed as a
parameter); when that fails the error is returned with a nil Chunk and
the download goroutine is never started, otherwise the wait group is
armed, the goroutine starts and the Chunk is returned with a nil
error. -/
def GetChunk (pooled : Chunk) (client ctx : Nat)
    (setRange : Int → Int → Except Nat GetObjectOptions)
    (offset size : Int) (bucket key : String) : Except Nat Chunk :=
  match setRange offset (offset + size - 1) with
  | .error e => .error e
  | .ok o =>
    .ok { pooled with client := some client, ctx := some ctx, bucket := bucket,
                      key := key, opts := some o, wg := some 1 }

/-! ## Arithmetic and list helpers -/

theorem pow2ceilAux_pos (fuel n : Nat) : 1 ≤ pow2ceilAux fuel n := by
  induction fuel generalizing n with
  | zero => simp [pow2ceilAux]
  | succ k ih =>
    simp only [pow2ceilAux]
    split
    · exact Nat.le_refl 1
    · have := ih ((n + 1) / 2)
      omega

theorem two_le_bufSize (m : Nat) (hm : m ≠ 0) : 2 ≤ bufSize m := by
  have h1 : bufSize m = pow2ceilAux (m + 1) (m + 1) := rfl
  rw [h1]
  simp only [pow2ceilAux]
  rw [if_neg (by omega)]
  have := pow2ceilAux_pos m ((m + 1 + 1) / 2)
  omega

theorem mod_cases (a n : Nat) (h1 : 0 < n) (h2 : a < 2 * n) :
    a % n = if a < n then a else a - n := by
  split
  · exact Nat.mod_eq_of_lt (by assumption)
  · have hn : n ≤ a := by omega
    rw [Nat.mod_eq_sub_mod hn, Nat.mod_eq_of_lt (by omega)]

theorem getD_set_eq_ite {β : Type} (l : List β) (i j : Nat) (v d : β) :
    (l.set i v).getD j d = if j = i ∧ i < l.length then v else l.getD j d := by
  induction l generalizing i j with
  | nil => simp
  | cons a t ih =>
    cases i with
    | zero =>
      cases j with
      | zero => simp
      | succ j2 => simp
    | succ k =>
      cases j with
      | zero => simp
      | succ j2 =>
        simp only [List.set_cons_succ, List.getD_cons_succ, ih, List.length_cons]
        split_ifs <;> first | rfl | omega

/-! ## Basic facts about valid queue states -/

namespace Circular

variable {α : Type}

theorem toList_length (c : Circular α) : c.toList.length = c.Length := by
  simp [toList]

theorem valid_bufLen {c : Circular α} (hv : c.Valid) (hm : c.maxSize ≠ 0) :
    2 ≤ c.buffer.length := by
  obtain ⟨-, h2⟩ := hv
  obtain ⟨hl, -, -⟩ := h2 hm
  rw [hl]
  exact two_le_bufSize _ hm

theorem valid_head_lt {c : Circular α} (hv : c.Valid) (hm : c.maxSize ≠ 0) :
    c.head < c.buffer.length :=
  (hv.2 hm).2.1

theorem valid_tail_lt {c : Circular α} (hv : c.Valid) (hm : c.maxSize ≠ 0) :
    c.tail < c.buffer.length :=
  (hv.2 hm).2.2

theorem Length_lt {c : Circular α} (hv : c.Valid) (hm : c.maxSize ≠ 0) :
    c.Length < c.buffer.length := by
  have h2 := valid_bufLen hv hm
  unfold Length
  rw [if_neg hm]
  exact Nat.mod_lt _ (by omega)

theorem Length_cases {c : Circular α} (hv : c.Valid) (hm : c.maxSize ≠ 0) :
    (c.head ≤ c.tail ∧ c.Length = c.tail - c.head) ∨
    (c.tail < c.head ∧ c.Length = c.tail + c.buffer.length - c.head) := by
  have hlen := valid_bufLen hv hm
  have hh := valid_head_lt hv hm
  have ht := valid_tail_lt hv hm
  unfold Length
  rw [if_neg hm, mod_cases _ _ (by omega) (by omega)]
  split_ifs <;> omega

theorem full_iff {c : Circular α} (hv : c.Valid) (hm : c.maxSize ≠ 0) :
    ((c.tail + 1) % c.buffer.length = c.head) ↔ c.Length + 1 = c.buffer.length := by
  have hlen := valid_bufLen hv hm
  have hh := valid_head_lt hv hm
  have ht := valid_tail_lt hv hm
  rcases Length_cases hv hm with ⟨h1, h2⟩ | ⟨h1, h2⟩ <;>
  · rw [h2, mod_cases _ _ (by omega) (by omega)]
    split_ifs <;> omega

theorem head_add_length_mod {c : Circular α} (hv : c.Valid) (hm : c.maxSize ≠ 0) :
    (c.head + c.Length) % c.buffer.length = c.tail := by
  have hlen := valid_bufLen hv hm
  have hh := valid_head_lt hv hm
  have ht := valid_tail_lt hv hm
  have hL := Length_lt hv hm
  rcases Length_cases hv hm with ⟨h1, h2⟩ | ⟨h1, h2⟩ <;>
  · rw [h2, mod_cases _ _ (by omega) (by omega)]
    split_ifs <;> omega

theorem head_add_lt_ne_tail {c : Circular α} (hv : c.Valid) (hm : c.maxSize ≠ 0)
    {i : Nat} (hi : i < c.Length) :
    (c.head + i) % c.buffer.length ≠ c.tail := by
  have hlen := valid_bufLen hv hm
  have hh := valid_head_lt hv hm
  have ht := valid_tail_lt hv hm
  have hL := Length_lt hv hm
  rcases Length_cases hv hm with ⟨h1, h2⟩ | ⟨h1, h2⟩ <;>
  · rw [mod_cases _ _ (by omega) (by omega)]
    split_ifs <;> omega

/-! ## Push specification -/

theorem Push_closed {c : Circular α} {e : α} (hc : c.closed = true) :
    c.Push e = .closed := by
  unfold Push
  rw [if_pos hc]

theorem Push_blocked {c : Circular α} {e : α} (hv : c.Valid) (hc : c.closed = false)
    (hm : c.maxSize ≠ 0) (hf : c.Length + 1 = c.buffer.length) :
    c.Push e = .blocked := by
  unfold Push
  rw [if_neg (by simp [hc]), if_neg hm, if_pos ((full_iff hv hm).2 hf)]

theorem Push_ok_exists {c : Circular α} (e : α) (hv : c.Valid) (hc : c.closed = false)
    (hl : c.maxSize ≠ 0 → c.Length + 1 < c.buffer.length) :
    ∃ q, c.Push e = .ok q := by
  unfold Push
  rw [if_neg (by simp [hc])]
  by_cases hm : c.maxSize = 0
  · rw [if_pos hm]
    exact ⟨_, rfl⟩
  · rw [if_neg hm, if_neg (fun hfull => by
      have := (full_iff hv hm).1 hfull
      have := hl hm
      omega)]
    exact ⟨_, rfl⟩

theorem Push_eq_append {c : Circular α} (e : α) (h1 : ¬c.closed = true)
    (h2 : c.maxSize = 0) :
    c.Push e = .ok { c with buffer := c.buffer ++ [some e], tail := c.tail + 1 } := by
  unfold Push
  rw [if_neg h1, if_pos h2]

theorem Push_eq_ring {c : Circular α} (e : α) (h1 : ¬c.closed = true)
    (h2 : ¬c.maxSize = 0) (h3 : ¬(c.tail + 1) % c.buffer.length = c.head) :
    c.Push e = .ok { c with buffer := c.buffer.set c.tail (some e)
                            tail := (c.tail + 1) % c.buffer.length } := by
  unfold Push
  rw [if_neg h1, if_neg h2, if_neg h3]

theorem push_append_spec {c : Circular α} (e : α) (hv : c.Valid) (h2 : c.maxSize = 0) :
    ({ c with buffer := c.buffer ++ [some e], tail := c.tail + 1 } : Circular α).Valid ∧
    ({ c with buffer := c.buffer ++ [some e], tail := c.tail + 1 } : Circular α).toList
      = c.toList ++ [some e] ∧
    ({ c with buffer := c.buffer ++ [some e], tail := c.tail + 1 } : Circular α).Length
      = c.Length + 1 := by
  obtain ⟨hlb, hht⟩ := hv.1 h2
  have hLc : c.Length = c.tail - c.head := by
    unfold Length
    rw [if_pos h2]
  have hL1 : ({ c with buffer := c.buffer ++ [some e]
                       tail := c.tail + 1 } : Circular α).Length = c.Length + 1 := by
    unfold Length
    simp only [List.length_append, List.length_singleton]
    rw [if_pos h2, if_pos h2]
    omega
  refine ⟨⟨fun _ => ?_, fun hne => ?_⟩, ?_, hL1⟩
  · simp only [List.length_append, List.length_singleton]
    omega
  · simp only [] at hne
    exact absurd h2 hne
  · unfold toList
    rw [hL1, List.range_succ, List.map_append]
    simp only [List.length_append, List.length_singleton, List.map_cons, List.map_nil]
    congr 1
    · apply List.map_congr_left
      intro i hi
      rw [List.mem_range] at hi
      have hit : c.head + i < c.tail := by omega
      rw [hlb, Nat.mod_eq_of_lt (by omega), Nat.mod_eq_of_lt (by omega),
        List.getD_append _ _ _ _ (by omega)]
    · have hht2 : c.head + c.Length = c.tail := by omega
      rw [hht2, hlb, Nat.mod_eq_of_lt (by omega),
        List.getD_append_right _ _ _ _ (by omega)]
      simp [hlb]

theorem push_ring_spec {c : Circular α} (e : α) (hv : c.Valid) (h2 : ¬c.maxSize = 0)
    (h3 : ¬(c.tail + 1) % c.buffer.length = c.head) :
    ({ c with buffer := c.buffer.set c.tail (some e)
              tail := (c.tail + 1) % c.buffer.length } : Circular α).Valid ∧
    ({ c with buffer := c.buffer.set c.tail (some e)
              tail := (c.tail + 1) % c.buffer.length } : Circular α).toList
      = c.toList ++ [some e] ∧
    ({ c with buffer := c.buffer.set c.tail (some e)
              tail := (c.tail + 1) % c.buffer.length } : Circular α).Length
      = c.Length + 1 := by
  have hlen := valid_bufLen hv h2
  have hh := valid_head_lt hv h2
  have ht := valid_tail_lt hv h2
  have hL1n : c.Length + 1 < c.buffer.length := by
    have hne : c.Length + 1 ≠ c.buffer.length := fun heq => h3 ((full_iff hv h2).2 heq)
    have := Length_lt hv h2
    omega
  have hL1 : ({ c with buffer := c.buffer.set c.tail (some e)
                       tail := (c.tail + 1) % c.buffer.length } : Circular α).Length = c.Length + 1 := by
    rcases Length_cases hv h2 with ⟨g1, g2⟩ | ⟨g1, g2⟩ <;>
    · rw [g2]
      unfold Length
      simp only [List.length_set]
      rw [if_neg h2]
      by_cases ht1 : c.tail + 1 < c.buffer.length
      · rw [Nat.mod_eq_of_lt ht1, mod_cases _ _ (by omega) (by omega)]
        split_ifs <;> omega
      · have ht2 : c.tail + 1 = c.buffer.length := by omega
        have hhz : ¬c.head = 0 := by
          intro hz
          rw [ht2, Nat.mod_self] at h3
          exact h3 hz.symm
        rw [ht2, Nat.mod_self, mod_cases _ _ (by omega) (by omega)]
        split_ifs <;> omega
  refine ⟨⟨fun h0 => absurd h0 h2, fun _ => ?_⟩, ?_, hL1⟩
  · refine ⟨?_, ?_, ?_⟩ <;> simp only [List.length_set]
    · exact (hv.2 h2).1
    · exact hh
    · exact Nat.mod_lt _ (by omega)
  · unfold toList
    rw [hL1, List.range_succ, List.map_append]
    simp only [List.length_set, List.map_cons, List.map_nil]
    congr 1
    · apply List.map_congr_left
      intro i hi
      rw [List.mem_range] at hi
      rw [getD_set_eq_ite,
        if_neg (fun hcon => head_add_lt_ne_tail hv h2 hi hcon.1)]
    · rw [head_add_length_mod hv h2, getD_set_eq_ite, if_pos ⟨rfl, ht⟩]

theorem Push_eq_ok {c : Circular α} {e : α} {q : Circular α} (hv : c.Valid)
    (hq : c.Push e = .ok q) :
    q.Valid ∧ q.toList = c.toList ++ [some e] ∧ q.Length = c.Length + 1 ∧
    q.closed = c.closed ∧ q.maxSize = c.maxSize ∧ c.closed = false ∧
    (c.maxSize = 0 → q.tail = c.tail + 1) := by
  by_cases h1 : c.closed = true
  · rw [Push_closed h1] at hq
    simp at hq
  by_cases h2 : c.maxSize = 0
  · rw [Push_eq_append e h1 h2] at hq
    injection hq with hq
    obtain ⟨s1, s2, s3⟩ := push_append_spec e hv h2
    subst hq
    exact ⟨s1, s2, s3, rfl, rfl, by simpa using h1, fun _ => rfl⟩
  by_cases h3 : (c.tail + 1) % c.buffer.length = c.head
  · unfold Push at hq
    rw [if_neg h1, if_neg h2, if_pos h3] at hq
    simp at hq
  · rw [Push_eq_ring e h1 h2 h3] at hq
    injection hq with hq
    obtain ⟨s1, s2, s3⟩ := push_ring_spec e hv h2 h3
    subst hq
    exact ⟨s1, s2, s3, rfl, rfl, by simpa using h1, fun h0 => absurd h0 h2⟩

/-! ## Pop specification -/

theorem Pop_closed {c : Circular α} (h0 : c.Length = 0) (hc : c.closed = true) :
    c.Pop = .closed := by
  unfold Pop
  rw [if_pos h0, if_pos hc]

theorem Pop_blocked {c : Circular α} (h0 : c.Length = 0) (hc : c.closed = false) :
    c.Pop = .blocked := by
  unfold Pop
  rw [if_pos h0, if_neg (by simp [hc])]

theorem Pop_eq_of_pos {c : Circular α} (h0 : ¬c.Length = 0) :
    c.Pop = .ok (c.buffer.getD c.head none)
      { c with head := if c.maxSize = 0 then c.head + 1
                       else (c.head + 1) % c.buffer.length } := by
  unfold Pop
  rw [if_neg h0]

theorem pop_spec {c : Circular α} (hv : c.Valid) (h0 : ¬c.Length = 0) :
    ({ c with head := if c.maxSize = 0 then c.head + 1
                      else (c.head + 1) % c.buffer.length } : Circular α).Valid ∧
    c.toList = c.buffer.getD c.head none ::
      ({ c with head := if c.maxSize = 0 then c.head + 1
                        else (c.head + 1) % c.buffer.length } : Circular α).toList ∧
    ({ c with head := if c.maxSize = 0 then c.head + 1
              else (c.head + 1) % c.buffer.length } : Circular α).Length + 1 = c.Length := by
  by_cases hm : c.maxSize = 0
  · obtain ⟨hlb, hht⟩ := hv.1 hm
    have hLc : c.Length = c.tail - c.head := by
      unfold Length
      rw [if_pos hm]
    have hlt : c.head < c.tail := by omega
    simp only [if_pos hm]
    have hq1 : ({ c with head := c.head + 1 } : Circular α).Length + 1 = c.Length := by
      rw [hLc]
      unfold Length
      rw [if_pos hm]
      simp only []
      omega
    refine ⟨⟨fun _ => ⟨hlb, by simp only []; omega⟩, fun hne => absurd hm (by simpa using hne)⟩,
      ?_, hq1⟩
    unfold toList
    have hLs : c.Length = (c.Length - 1) + 1 := by omega
    have hqL : ({ c with head := c.head + 1 } : Circular α).Length = c.Length - 1 := by
      omega
    rw [hqL, hLs, List.range_succ_eq_map]
    simp only [List.map_cons, List.map_map, Nat.add_zero]
    congr 1
    · rw [hlb, Nat.mod_eq_of_lt hlt]
    · apply List.map_congr_left
      intro i hi
      rw [List.mem_range] at hi
      simp only [Function.comp, Nat.succ_eq_add_one]
      have harith : c.head + (i + 1) = c.head + 1 + i := by omega
      rw [harith]
  · have hlen := valid_bufLen hv hm
    have hh := valid_head_lt hv hm
    have ht := valid_tail_lt hv hm
    simp only [if_neg hm]
    have hq1 : ({ c with head := (c.head + 1) % c.buffer.length } : Circular α).Length + 1
        = c.Length := by
      rcases Length_cases hv hm with ⟨g1, g2⟩ | ⟨g1, g2⟩ <;>
      · rw [g2]
        unfold Length
        simp only []
        rw [if_neg hm]
        by_cases hh1 : c.head + 1 < c.buffer.length
        · rw [Nat.mod_eq_of_lt hh1, mod_cases _ _ (by omega) (by omega)]
          split_ifs <;> omega
        · have hh2 : c.head + 1 = c.buffer.length := by omega
          rw [hh2, Nat.mod_self, mod_cases _ _ (by omega) (by omega)]
          split_ifs <;> omega
    refine ⟨⟨fun h0m => absurd h0m hm,
      fun _ => ⟨(hv.2 hm).1, Nat.mod_lt _ (by omega), ht⟩⟩, ?_, hq1⟩
    unfold toList
    have hLs : c.Length = (c.Length - 1) + 1 := by omega
    have hqL : ({ c with head := (c.head + 1) % c.buffer.length } : Circular α).Length
        = c.Length - 1 := by
      omega
    rw [hqL, hLs, List.range_succ_eq_map]
    simp only [List.map_cons, List.map_map, Nat.add_zero]
    congr 1
    · rw [Nat.mod_eq_of_lt hh]
    · apply List.map_congr_left
      intro i hi
      rw [List.mem_range] at hi
      simp only [Function.comp, Nat.succ_eq_add_one]
      rw [Nat.mod_add_mod]
      have harith : c.head + (i + 1) = c.head + 1 + i := by omega
      rw [harith]

theorem Pop_eq_ok {c : Circular α} {e : Option α} {q : Circular α} (hv : c.Valid)
    (hq : c.Pop = .ok e q) :
    e = c.buffer.getD c.head none ∧ q.Valid ∧ c.toList = e :: q.toList ∧
    q.Length + 1 = c.Length ∧ q.closed = c.closed ∧ q.maxSize = c.maxSize ∧
    q.tail = c.tail ∧ q.buffer = c.buffer ∧ 0 < c.Length := by
  by_cases h0 : c.Length = 0
  · unfold Pop at hq
    rw [if_pos h0] at hq
    split_ifs at hq
  · rw [Pop_eq_of_pos h0] at hq
    injection hq with hq1 hq2
    subst hq1
    subst hq2
    obtain ⟨s1, s2, s3⟩ := pop_spec hv h0
    exact ⟨rfl, s1, s2, s3, rfl, rfl, rfl, rfl, by omega⟩

/-! ## Constructor, Close, and operation sequences -/

theorem Valid_new (α : Type) (m : Nat) : (NewCircular α m).Valid := by
  constructor
  · intro h
    simp only [NewCircular] at h ⊢
    rw [if_pos h]
    simp
  · intro h
    simp only [NewCircular] at h ⊢
    rw [if_neg h]
    have := two_le_bufSize m h
    refine ⟨by simp, ?_, ?_⟩ <;> simp only [List.length_replicate] <;> omega

theorem Valid_Close {c : Circular α} (hv : c.Valid) : c.Close.Valid := hv

theorem toList_Close (c : Circular α) : c.Close.toList = c.toList := rfl

theorem Length_Close (c : Circular α) : c.Close.Length = c.Length := rfl

theorem closed_Close (c : Circular α) : c.Close.closed = true := rfl

end Circular

open Circular

theorem step_facts {α : Type} {c : Circular α} (op : Op α) (hv : c.Valid) :
    (step c op).Valid ∧ (step c op).maxSize = c.maxSize ∧
    (c.closed = true → (step c op).closed = true) := by
  cases op with
  | push e =>
    simp only [step]
    cases hP : c.Push e with
    | ok q =>
      obtain ⟨v, -, -, hcl, hms, -, -⟩ := Push_eq_ok hv hP
      exact ⟨v, hms, fun hc => by rw [hcl]; exact hc⟩
    | closed => exact ⟨hv, rfl, fun hc => hc⟩
    | blocked => exact ⟨hv, rfl, fun hc => hc⟩
  | pop =>
    simp only [step]
    cases hP : c.Pop with
    | ok e q =>
      obtain ⟨-, v, -, -, hcl, hms, -, -, -⟩ := Pop_eq_ok hv hP
      exact ⟨v, hms, fun hc => by rw [hcl]; exact hc⟩
    | closed => exact ⟨hv, rfl, fun hc => hc⟩
    | blocked => exact ⟨hv, rfl, fun hc => hc⟩
  | close => exact ⟨Valid_Close hv, rfl, fun _ => rfl⟩

theorem run_facts {α : Type} {c : Circular α} (ops : List (Op α)) (hv : c.Valid) :
    (run c ops).Valid ∧ (run c ops).maxSize = c.maxSize ∧
    (c.closed = true → (run c ops).closed = true) := by
  induction ops generalizing c with
  | nil => exact ⟨hv, rfl, fun hc => hc⟩
  | cons op ops ih =>
    obtain ⟨v1, m1, c1⟩ := step_facts op hv
    obtain ⟨v2, m2, c2⟩ := ih v1
    exact ⟨v2, m2.trans m1, fun hc => c2 (c1 hc)⟩

theorem step_mono_unbounded {α : Type} {c : Circular α} (op : Op α)
    (hm : c.maxSize = 0) :
    c.head ≤ (step c op).head ∧ c.tail ≤ (step c op).tail := by
  cases op with
  | push e =>
    simp only [step]
    cases hP : c.Push e with
    | ok q =>
      by_cases hc : c.closed = true
      · rw [Push_closed hc] at hP
        simp at hP
      · rw [Push_eq_append e hc hm] at hP
        injection hP with hP
        subst hP
        exact ⟨Nat.le_refl _, Nat.le_succ _⟩
    | closed => exact ⟨Nat.le_refl _, Nat.le_refl _⟩
    | blocked => exact ⟨Nat.le_refl _, Nat.le_refl _⟩
  | pop =>
    simp only [step]
    cases hP : c.Pop with
    | ok e q =>
      by_cases h0 : c.Length = 0
      · unfold Pop at hP
        rw [if_pos h0] at hP
        split_ifs at hP
      · rw [Pop_eq_of_pos h0] at hP
        injection hP with h1 h2
        subst h2
        constructor
        · simp only []
          rw [if_pos hm]
          omega
        · exact Nat.le_refl _
    | closed => exact ⟨Nat.le_refl _, Nat.le_refl _⟩
    | blocked => exact ⟨Nat.le_refl _, Nat.le_refl _⟩
  | close => exact ⟨Nat.le_refl _, Nat.le_refl _⟩

theorem run_mono_unbounded {α : Type} {c : Circular α} (ops : List (Op α))
    (hv : c.Valid) (hm : c.maxSize = 0) :
    c.head ≤ (run c ops).head ∧ c.tail ≤ (run c ops).tail := by
  induction ops generalizing c with
  | nil => exact ⟨Nat.le_refl _, Nat.le_refl _⟩
  | cons op ops ih =>
    have h1 := step_mono_unbounded op hm
    have hm1 : (step c op).maxSize = 0 := by
      rw [(step_facts op hv).2.1]
      exact hm
    have h2 := ih (step_facts op hv).1 hm1
    exact ⟨Nat.le_trans h1.1 h2.1, Nat.le_trans h1.2 h2.2⟩

theorem pushAll_spec {α : Type} {c : Circular α} {es : List α} {c1 : Circular α}
    (hv : c.Valid) (hp : pushAll c es = some c1) :
    c1.Valid ∧ c1.toList = c.toList ++ es.map some ∧
    c1.Length = c.Length + es.length ∧ c1.closed = c.closed ∧
    c1.maxSize = c.maxSize ∧ (c.maxSize = 0 → c1.tail = c.tail + es.length) := by
  induction es generalizing c with
  | nil =>
    simp only [pushAll, Option.some.injEq] at hp
    subst hp
    exact ⟨hv, by simp, by simp, rfl, rfl, fun _ => by simp⟩
  | cons e es ih =>
    unfold pushAll at hp
    cases hP : c.Push e with
    | ok q =>
      rw [hP] at hp
      obtain ⟨v1, t1, l1, cl1, ms1, -, tl1⟩ := Push_eq_ok hv hP
      obtain ⟨v2, t2, l2, cl2, ms2, tl2⟩ := ih v1 hp
      refine ⟨v2, ?_, ?_, cl2.trans cl1, ms2.trans ms1, ?_⟩
      · rw [t2, t1]
        simp
      · rw [l2, l1]
        simp only [List.length_cons]
        omega
      · intro hm0
        have hmq : q.maxSize = 0 := by
          rw [ms1]
          exact hm0
        rw [tl2 hmq, tl1 hm0]
        simp only [List.length_cons]
        omega
    | closed => simp [hP] at hp
    | blocked => simp [hP] at hp

theorem pushAll_unbounded_ok {α : Type} {c : Circular α} (es : List α) (hv : c.Valid)
    (hm : c.maxSize = 0) (hc : c.closed = false) :
    ∃ c1, pushAll c es = some c1 := by
  induction es generalizing c with
  | nil => exact ⟨c, rfl⟩
  | cons e es ih =>
    obtain ⟨q, hq⟩ := Push_ok_exists e hv hc (fun hne => absurd hm hne)
    obtain ⟨v1, -, -, cl1, ms1, -, -⟩ := Push_eq_ok hv hq
    have hmq : q.maxSize = 0 := by
      rw [ms1]
      exact hm
    have hcq : q.closed = false := by
      rw [cl1]
      exact hc
    obtain ⟨c1, h1⟩ := ih v1 hmq hcq
    refine ⟨c1, ?_⟩
    unfold pushAll
    rw [hq]
    exact h1

theorem popAll_succ {α : Type} {c : Circular α} {e : Option α} {q : Circular α}
    (n : Nat) (hP : c.Pop = .ok e q) :
    popAll c (n + 1) = (popAll q n).map (fun p => (e :: p.1, p.2)) := by
  conv_lhs => unfold popAll
  rw [hP]

theorem popAll_spec {α : Type} (c : Circular α) (hv : c.Valid) :
    ∃ cf, popAll c c.Length = some (c.toList, cf) ∧ cf.Valid ∧ cf.Length = 0 ∧
      cf.closed = c.closed ∧ cf.maxSize = c.maxSize := by
  suffices h : ∀ (L : Nat) (d : Circular α), d.Valid → d.Length = L →
      ∃ cf, popAll d L = some (d.toList, cf) ∧ cf.Valid ∧ cf.Length = 0 ∧
        cf.closed = d.closed ∧ cf.maxSize = d.maxSize by
    exact h c.Length c hv rfl
  intro L
  induction L with
  | zero =>
    intro d hvd hL
    have ht : d.toList = [] := by
      have h2 := toList_length d
      rw [hL] at h2
      exact List.eq_nil_of_length_eq_zero h2
    exact ⟨d, by simp [popAll, ht], hvd, hL, rfl, rfl⟩
  | succ K ih =>
    intro d hvd hL
    have h0 : ¬d.Length = 0 := by omega
    have hP := Pop_eq_of_pos h0
    obtain ⟨-, v1, t1, l1, cl1, ms1, -, -, -⟩ := Pop_eq_ok hvd hP
    have hqL : ({ d with head := if d.maxSize = 0 then d.head + 1
        else (d.head + 1) % d.buffer.length } : Circular α).Length = K := by
      omega
    obtain ⟨cf, h2, v2, l2, cl2, ms2⟩ := ih _ v1 hqL
    refine ⟨cf, ?_, v2, l2, cl2.trans cl1, ms2.trans ms1⟩
    rw [popAll_succ K hP, h2, t1]
    rfl

/-! ## Claim theorems -/

/-- C1: for every queue and every sequence of pushes that all succeed
with no interleaved pops, starting from any valid empty state (at any
cursor offset, so the sequence may wrap around the fixed store), the
next n successful pops return exactly the pushed elements in push
order. -/
theorem fifo_order {α : Type} (c : Circular α) (es : List α) (c1 : Circular α)
    (hv : c.Valid) (h0 : c.Length = 0) (hp : pushAll c es = some c1) :
    (popAll c1 es.length).map Prod.fst = some (es.map some) := by
  obtain ⟨hv1, htl, hL, -, -, -⟩ := pushAll_spec hv hp
  have hnil : c.toList = [] := by
    have h2 := toList_length c
    rw [h0] at h2
    exact List.eq_nil_of_length_eq_zero h2
  rw [hnil, List.nil_append] at htl
  have hL2 : c1.Length = es.length := by omega
  obtain ⟨cf, hpa, -, -, -, -⟩ := popAll_spec c1 hv1
  rw [hL2] at hpa
  rw [hpa, htl]
  rfl

/-- Witness for C1 at a capacity-4 queue and three pushed elements. -/
theorem fifo_order_witness :
    (popAll (Circular.mk [some 1, some 2, some 3, none, none, none, none, none]
        0 3 4 false) 3).map Prod.fst = some [some 1, some 2, some 3] :=
  fifo_order (NewCircular Nat 4) [1, 2, 3]
    (Circular.mk [some 1, some 2, some 3, none, none, none, none, none] 0 3 4 false)
    (by decide) (by decide) (by decide)

/-- C7: on an open queue with capacity 0, every sequence of sequential
pushes succeeds synchronously, appending the elements and advancing tail
by one per element; no push blocks. -/
theorem unbounded_push {α : Type} (c : Circular α) (es : List α) (hv : c.Valid)
    (hm : c.maxSize = 0) (hc : c.closed = false) :
    (pushAll c es).map Circular.toList = some (c.toList ++ es.map some) ∧
    (pushAll c es).map Circular.tail = some (c.tail + es.length) ∧
    (pushAll c es).map Circular.Length = some (c.Length + es.length) := by
  obtain ⟨c1, h1⟩ := pushAll_unbounded_ok es hv hm hc
  obtain ⟨-, t1, l1, -, -, tl1⟩ := pushAll_spec hv h1
  rw [h1]
  refine ⟨?_, ?_, ?_⟩
  · show some c1.toList = _
    rw [t1]
  · show some c1.tail = _
    rw [tl1 hm]
  · show some c1.Length = _
    rw [l1]

/-- Witness for C7 at a fresh capacity-0 queue and two pushes. -/
theorem unbounded_push_witness :
    (pushAll (NewCircular Nat 0) [5, 6]).map Circular.toList = some [some 5, some 6] ∧
    (pushAll (NewCircular Nat 0) [5, 6]).map Circular.tail = some 2 ∧
    (pushAll (NewCircular Nat 0) [5, 6]).map Circular.Length = some 2 :=
  unbounded_push (NewCircular Nat 0) [5, 6] (by decide) rfl rfl

/-- C2 counterexample: on a capacity-4 queue, four synchronous pushes
reach length 4 = capacity, and a fifth push nevertheless completes
synchronously, bringing the length to 5 > capacity, against the claim
that a push issued at length = capacity blocks. -/
theorem capacity_overflow_cex :
    (pushAll (NewCircular Nat 4) [1, 2, 3, 4]).map Circular.Length = some 4 ∧
    (pushAll (NewCircular Nat 4) [1, 2, 3, 4, 5]).map Circular.Length = some 5 := by
  decide

/-- C2 amended: for capacity > 0 the logical length stays within
[0, ringSize - 1], where ringSize is the physical power-of-two store
size chosen at construction (2 for capacity 1, 8 for capacity 4), after
every sequence of operations; a push issued while the length equals
ringSize - 1 on an open queue does not complete synchronously but
blocks. -/
theorem ring_capacity_bound {α : Type} (c : Circular α) (ops : List (Op α)) (e : α)
    (hv : c.Valid) (hm : c.maxSize ≠ 0) :
    (run c ops).Length + 1 ≤ (run c ops).buffer.length ∧
    ((run c ops).closed = false →
      (run c ops).Length + 1 = (run c ops).buffer.length →
      (run c ops).Push e = PushResult.blocked) := by
  obtain ⟨hv1, hms, -⟩ := run_facts ops hv
  have hm1 : (run c ops).maxSize ≠ 0 := by
    rw [hms]
    exact hm
  exact ⟨Length_lt hv1 hm1, fun hc hf => Push_blocked hv1 hc hm1 hf⟩

/-- Witness for the amended C2 at a capacity-1 queue holding one
element. -/
theorem ring_capacity_bound_witness :
    (run (NewCircular Nat 1) [Op.push 5]).Length + 1
      ≤ (run (NewCircular Nat 1) [Op.push 5]).buffer.length ∧
    ((run (NewCircular Nat 1) [Op.push 5]).closed = false →
      (run (NewCircular Nat 1) [Op.push 5]).Length + 1
        = (run (NewCircular Nat 1) [Op.push 5]).buffer.length →
      (run (NewCircular Nat 1) [Op.push 5]).Push 6 = PushResult.blocked) :=
  ring_capacity_bound (NewCircular Nat 1) [Op.push 5] 6 (by decide) (by decide)

/-- C3 counterexample: on a capacity-1 queue, push then pop then push
moves tail from 1 back to 0 (the counter decreases, so it wraps), and
leaves head = 1 > tail = 0, against head ≤ tail. -/
theorem cursor_wrap_cex :
    (run (NewCircular Nat 1) [Op.push 7]).tail = 1 ∧
    (run (NewCircular Nat 1) [Op.push 7, Op.pop, Op.push 7]).tail = 0 ∧
    (run (NewCircular Nat 1) [Op.push 7, Op.pop, Op.push 7]).head = 1 := by
  decide

/-- C3 amended: for capacity > 0 the head and tail cursors are ring
indices updated modulo the store size: across every operation sequence
they stay within [0, ringSize), may wrap back to 0, and head ≤ tail need
not hold; for capacity 0 they are monotonically non-decreasing and
head ≤ tail always holds. -/
theorem cursor_bounds {α : Type} (c : Circular α) (ops : List (Op α)) (hv : c.Valid) :
    (run c ops).Valid ∧
    (c.maxSize ≠ 0 → (run c ops).head < (run c ops).buffer.length ∧
      (run c ops).tail < (run c ops).buffer.length) ∧
    (c.maxSize = 0 → c.head ≤ (run c ops).head ∧ c.tail ≤ (run c ops).tail ∧
      (run c ops).head ≤ (run c ops).tail) := by
  obtain ⟨hv1, hms, -⟩ := run_facts ops hv
  refine ⟨hv1, fun hm => ?_, fun hm => ?_⟩
  · have hm1 : (run c ops).maxSize ≠ 0 := by
      rw [hms]
      exact hm
    exact ⟨valid_head_lt hv1 hm1, valid_tail_lt hv1 hm1⟩
  · have hmono := run_mono_unbounded ops hv hm
    have hm1 : (run c ops).maxSize = 0 := by
      rw [hms]
      exact hm
    exact ⟨hmono.1, hmono.2, (hv1.1 hm1).2⟩

/-- Witness for the amended C3 at a capacity-0 queue after two pushes
and a pop. -/
theorem cursor_bounds_witness :
    (run (NewCircular Nat 0) [Op.push 1, Op.push 2, Op.pop]).Valid ∧
    ((NewCircular Nat 0).maxSize ≠ 0 →
      (run (NewCircular Nat 0) [Op.push 1, Op.push 2, Op.pop]).head
        < (run (NewCircular Nat 0) [Op.push 1, Op.push 2, Op.pop]).buffer.length ∧
      (run (NewCircular Nat 0) [Op.push 1, Op.push 2, Op.pop]).tail
        < (run (NewCircular Nat 0) [Op.push 1, Op.push 2, Op.pop]).buffer.length) ∧
    ((NewCircular Nat 0).maxSize = 0 →
      (NewCircular Nat 0).head ≤ (run (NewCircular Nat 0) [Op.push 1, Op.push 2, Op.pop]).head ∧
      (NewCircular Nat 0).tail ≤ (run (NewCircular Nat 0) [Op.push 1, Op.push 2, Op.pop]).tail ∧
      (run (NewCircular Nat 0) [Op.push 1, Op.push 2, Op.pop]).head
        ≤ (run (NewCircular Nat 0) [Op.push 1, Op.push 2, Op.pop]).tail) :=
  cursor_bounds (NewCircular Nat 0) [Op.push 1, Op.push 2, Op.pop] (by decide)

/-- C4 counterexample: on a capacity-1 queue after push, pop, push, the
state has head = 1, tail = 0 and Length() = 1, but tail - head is 0 as
truncated natural subtraction and -1 as integer subtraction, so Length()
is not tail - head. -/
theorem length_formula_cex :
    (run (NewCircular Nat 1) [Op.push 7, Op.pop, Op.push 7]).Length = 1 ∧
    (run (NewCircular Nat 1) [Op.push 7, Op.pop, Op.push 7]).head = 1 ∧
    (run (NewCircular Nat 1) [Op.push 7, Op.pop, Op.push 7]).tail = 0 ∧
    (run (NewCircular Nat 1) [Op.push 7, Op.pop, Op.push 7]).tail
        - (run (NewCircular Nat 1) [Op.push 7, Op.pop, Op.push 7]).head
      ≠ (run (NewCircular Nat 1) [Op.push 7, Op.pop, Op.push 7]).Length ∧
    ((run (NewCircular Nat 1) [Op.push 7, Op.pop, Op.push 7]).tail : Int)
        - ((run (NewCircular Nat 1) [Op.push 7, Op.pop, Op.push 7]).head : Int)
      ≠ ((run (NewCircular Nat 1) [Op.push 7, Op.pop, Op.push 7]).Length : Int) := by
  decide

/-- C4 amended: in every valid state Length() returns the number of
buffered elements; it equals tail - head whenever head ≤ tail (in
particular always in capacity-0 mode), and in general for capacity > 0
it is (tail + ringSize - head) mod ringSize. -/
theorem length_spec {α : Type} (c : Circular α) (hv : c.Valid) :
    c.Length = c.toList.length ∧
    (c.head ≤ c.tail → c.Length = c.tail - c.head) ∧
    (c.maxSize ≠ 0 →
      c.Length = (c.tail + c.buffer.length - c.head) % c.buffer.length) := by
  refine ⟨(toList_length c).symm, fun hht => ?_, fun hm => ?_⟩
  · by_cases hm : c.maxSize = 0
    · unfold Circular.Length
      rw [if_pos hm]
    · rcases Length_cases hv hm with ⟨g1, g2⟩ | ⟨g1, g2⟩
      · exact g2
      · omega
  · unfold Circular.Length
    rw [if_neg hm]

/-- Witness for the amended C4 at a capacity-4 queue holding one
element. -/
theorem length_spec_witness :
    (Circular.mk [some 9, none, none, none, none, none, none, none]
        0 1 4 false : Circular Nat).Length
      = (Circular.mk [some 9, none, none, none, none, none, none, none]
        0 1 4 false : Circular Nat).toList.length ∧
    ((Circular.mk [some 9, none, none, none, none, none, none, none]
        0 1 4 false : Circular Nat).head
        ≤ (Circular.mk [some 9, none, none, none, none, none, none, none]
        0 1 4 false : Circular Nat).tail →
      (Circular.mk [some 9, none, none, none, none, none, none, none]
        0 1 4 false : Circular Nat).Length
        = (Circular.mk [some 9, none, none, none, none, none, none, none]
          0 1 4 false : Circular Nat).tail
          - (Circular.mk [some 9, none, none, none, none, none, none, none]
          0 1 4 false : Circular Nat).head) ∧
    ((Circular.mk [some 9, none, none, none, none, none, none, none]
        0 1 4 false : Circular Nat).maxSize ≠ 0 →
      (Circular.mk [some 9, none, none, none, none, none, none, none]
        0 1 4 false : Circular Nat).Length
        = ((Circular.mk [some 9, none, none, none, none, none, none, none]
            0 1 4 false : Circular Nat).tail
          + (Circular.mk [some 9, none, none, none, none, none, none, none]
            0 1 4 false : Circular Nat).buffer.length
          - (Circular.mk [some 9, none, none, none, none, none, none, none]
            0 1 4 false : Circular Nat).head)
          % (Circular.mk [some 9, none, none, none, none, none, none, none]
            0 1 4 false : Circular Nat).buffer.length) :=
  length_spec (Circular.mk [some 9, none, none, none, none, none, none, none]
    0 1 4 false) (by decide)

/-- C5: on a capacity-1 queue holding one element (obtained by a
successful push of p1 into a valid empty open state), a second push of
p2 does not complete synchronously but blocks; after a pop drains the
queue the drained value is p1, the retried push of p2 completes, and the
following pop returns p2. -/
theorem cap1_exact_blocking {α : Type} (c0 : Circular α) (p1 p2 : α) (c1 : Circular α)
    (hv : c0.Valid) (hm : c0.maxSize = 1) (hc : c0.closed = false)
    (h0 : c0.Length = 0) (hp : c0.Push p1 = .ok c1) :
    c1.Push p2 = PushResult.blocked ∧
    ∃ c2 c3 c4, c1.Pop = PopResult.ok (some p1) c2 ∧ c2.Push p2 = PushResult.ok c3 ∧
      c3.Pop = PopResult.ok (some p2) c4 := by
  obtain ⟨hv1, t1, l1, cl1, ms1, -, -⟩ := Push_eq_ok hv hp
  have hms1 : c1.maxSize = 1 := by
    rw [ms1]
    exact hm
  have hm10 : c1.maxSize ≠ 0 := by omega
  have hlen1 : c1.buffer.length = 2 := by
    have h2 := (hv1.2 hm10).1
    rw [hms1] at h2
    rw [h2]
    rfl
  have hL1 : c1.Length = 1 := by
    rw [l1, h0]
  have hnil : c0.toList = [] := by
    have h2 := toList_length c0
    rw [h0] at h2
    exact List.eq_nil_of_length_eq_zero h2
  have ht1 : c1.toList = [some p1] := by
    rw [t1, hnil, List.nil_append]
  have hc1 : c1.closed = false := by
    rw [cl1]
    exact hc
  have hblock : c1.Push p2 = PushResult.blocked :=
    Push_blocked hv1 hc1 hm10 (by rw [hL1, hlen1])
  have hpop := Pop_eq_of_pos (c := c1) (by omega)
  obtain ⟨-, v2, t2, l2, cl2, ms2, -, b2, -⟩ := Pop_eq_ok hv1 hpop
  rw [ht1] at t2
  injection t2 with ha hb
  rw [← ha] at hpop
  have hL2 : ({ c1 with head := if c1.maxSize = 0 then c1.head + 1
      else (c1.head + 1) % c1.buffer.length } : Circular α).Length = 0 := by
    omega
  have hlen2 : ({ c1 with head := if c1.maxSize = 0 then c1.head + 1
      else (c1.head + 1) % c1.buffer.length } : Circular α).buffer.length = 2 := by
    rw [b2]
    exact hlen1
  have hc2 : ({ c1 with head := if c1.maxSize = 0 then c1.head + 1
      else (c1.head + 1) % c1.buffer.length } : Circular α).closed = false := by
    rw [cl2]
    exact hc1
  obtain ⟨c3, hp3⟩ := Push_ok_exists p2 v2 hc2 (fun _ => by omega)
  obtain ⟨v3, t3, l3, cl3, ms3, -, -⟩ := Push_eq_ok v2 hp3
  have ht3 : c3.toList = [some p2] := by
    rw [t3, ← hb, List.nil_append]
  have hL3 : c3.Length = 1 := by
    rw [l3, hL2]
  have hpop3 := Pop_eq_of_pos (c := c3) (by omega)
  obtain ⟨-, v4, t4, l4, -, -, -, -, -⟩ := Pop_eq_ok v3 hpop3
  rw [ht3] at t4
  injection t4 with ha4 hb4
  rw [← ha4] at hpop3
  exact ⟨hblock, _, c3, _, hpop, hp3, hpop3⟩

/-- Witness for C5: a freshly constructed capacity-1 queue holding one
element refuses a second synchronous push. -/
theorem cap1_exact_blocking_witness :
    (Circular.mk [some 1, none] 0 1 1 false : Circular Nat).Push 2
      = PushResult.blocked :=
  (cap1_exact_blocking (NewCircular Nat 1) 1 2
    (Circular.mk [some 1, none] 0 1 1 false)
    (by decide) rfl rfl (by decide) (by decide)).1

/-- C6: after Close, IsClosed is true; after any further operation
sequence the queue stays closed and every Push fails with the Closed
error, whether or not buffered elements remain; Pop fails with the
Closed error whenever no buffered element remains (and keeps failing on
repetition, since a failed call leaves the state unchanged). -/
theorem close_semantics {α : Type} (c : Circular α) (e : α) (ops : List (Op α))
    (hv : c.Valid) :
    c.Close.IsClosed = true ∧ (run c.Close ops).closed = true ∧
    (run c.Close ops).Push e = PushResult.closed ∧
    ((run c.Close ops).Length = 0 → (run c.Close ops).Pop = PopResult.closed) := by
  obtain ⟨-, -, hcl⟩ := run_facts ops (Valid_Close hv)
  have hc : (run c.Close ops).closed = true := hcl rfl
  exact ⟨rfl, hc, Push_closed hc, fun hl => Pop_closed hl hc⟩

/-- Witness for C6 at a closed capacity-1 queue that still holds an
element: the subsequent Push fails with Closed even though the queue is
not empty. -/
theorem close_semantics_witness :
    (Circular.mk [some 7, none] 0 1 1 false : Circular Nat).Close.IsClosed = true ∧
    (run (Circular.mk [some 7, none] 0 1 1 false : Circular Nat).Close
      [Op.push 9]).closed = true ∧
    (run (Circular.mk [some 7, none] 0 1 1 false : Circular Nat).Close
      [Op.push 9]).Push 3 = PushResult.closed ∧
    ((run (Circular.mk [some 7, none] 0 1 1 false : Circular Nat).Close
        [Op.push 9]).Length = 0 →
      (run (Circular.mk [some 7, none] 0 1 1 false : Circular Nat).Close
        [Op.push 9]).Pop = PopResult.closed) :=
  close_semantics (Circular.mk [some 7, none] 0 1 1 false) 3 [Op.push 9] (by decide)

/-- C8: on any valid queue with length > 0, Pop returns the element in
the head slot even when the queue is already closed; after Close, a
queue drains all its buffered elements in order, and the next Pop after
the drain fails with the Closed error. -/
theorem drain_after_close {α : Type} (c : Circular α) (hv : c.Valid) :
    (0 < c.Length → c.popped = some (c.buffer.getD c.head none)) ∧
    (popAll c.Close c.Length).map Prod.fst = some c.toList ∧
    (popAll c.Close c.Length).map (fun p => p.2.Pop) = some PopResult.closed := by
  refine ⟨?_, ?_, ?_⟩
  · intro h0
    unfold Circular.popped
    rw [Pop_eq_of_pos (by omega)]
  · obtain ⟨cf, hpa, -, -, -, -⟩ := popAll_spec c.Close (Valid_Close hv)
    rw [Length_Close, toList_Close] at hpa
    rw [hpa]
    rfl
  · obtain ⟨cf, hpa, -, hl0, hcf, -⟩ := popAll_spec c.Close (Valid_Close hv)
    rw [Length_Close] at hpa
    rw [hpa]
    show some cf.Pop = some PopResult.closed
    rw [Pop_closed hl0 (by rw [hcf]; rfl)]

/-- Witness for C8 at an already-closed capacity-1 queue holding one
element. -/
theorem drain_after_close_witness :
    (popAll (Circular.mk [some 7, none] 0 1 1 true : Circular Nat).Close
        (Circular.mk [some 7, none] 0 1 1 true : Circular Nat).Length).map Prod.fst
      = some (Circular.mk [some 7, none] 0 1 1 true : Circular Nat).toList :=
  (drain_after_close (Circular.mk [some 7, none] 0 1 1 true) (by decide)).2.1

/-- C9: Chunk.Reset sets the client, ctx, opts, obj, data, err and wg
fields to nil and leaves bucket and key unchanged, so a chunk recycled
through the pool keeps the bucket and key of its previous use. -/
theorem reset_frame (c : Chunk) :
    c.Reset.bucket = c.bucket ∧ c.Reset.key = c.key ∧
    c.Reset.client = none ∧ c.Reset.ctx = none ∧ c.Reset.opts = none ∧
    c.Reset.obj = none ∧ c.Reset.data = none ∧ c.Reset.err = none ∧
    c.Reset.wg = none :=
  ⟨rfl, rfl, rfl, rfl, rfl, rfl, rfl, rfl, rfl⟩

/-- C10: GetChunk fails exactly when the external SetRange call on the
range offset..offset+size-1 fails, and then returns that error and no
chunk (so no download goroutine is started); otherwise it returns, with
a nil error, the pooled chunk armed for download, and once the download
body has run, Wait yields the download outcome: the bytes read and the
read error on a successful GetObject, or the stored data and the
GetObject error otherwise. -/
theorem getChunk_spec (pooled : Chunk) (client ctx : Nat)
    (setRange : Int → Int → Except Nat GetObjectOptions) (offset size : Int)
    (bucket key : String) :
    (∀ e, GetChunk pooled client ctx setRange offset size bucket key = .error e ↔
        setRange offset (offset + size - 1) = .error e) ∧
    (∀ o, setRange offset (offset + size - 1) = .ok o →
      GetChunk pooled client ctx setRange offset size bucket key =
        .ok { pooled with client := some client, ctx := some ctx, bucket := bucket,
                          key := key, opts := some o, wg := some 1 }) ∧
    (∀ c obj readAll,
      GetChunk pooled client ctx setRange offset size bucket key = .ok c →
      (Chunk.download c (Except.ok obj) readAll).Wait
        = (some (readAll obj).1, (readAll obj).2)) ∧
    (∀ c e readAll,
      GetChunk pooled client ctx setRange offset size bucket key = .ok c →
      (Chunk.download c (Except.error e) readAll).Wait = (c.data, some e)) := by
  refine ⟨?_, ?_, fun c obj readAll _ => rfl, fun c e readAll _ => rfl⟩
  · intro e
    unfold GetChunk
    cases hsr : setRange offset (offset + size - 1) with
    | error e2 => simp
    | ok o => simp
  · intro o hsr
    unfold GetChunk
    rw [hsr]

/-- Witness for C10: a concrete range-setting function that accepts the
range 0..9 and the resulting chunk. -/
theorem getChunk_spec_witness :
    GetChunk (Chunk.mk none none ("") ("") none none none none none) 1 2
        (fun a b => if a ≤ b then Except.ok (GetObjectOptions.mk a b)
                    else Except.error 9) 0 10 ("bu") ("ke")
      = Except.ok (Chunk.mk (some 1) (some 2) ("bu") ("ke")
          (some (GetObjectOptions.mk 0 9)) none none none (some 1)) :=
  (getChunk_spec (Chunk.mk none none ("") ("") none none none none none) 1 2
    (fun a b => if a ≤ b then Except.ok (GetObjectOptions.mk a b)
                else Except.error 9) 0 10 ("bu") ("ke")).2.1
    (GetObjectOptions.mk 0 9) rfl

end Common
